import Mathlib

set_option linter.unusedVariables false

namespace Avlsort

/-- Height-change signal propagated to the parent node (src/node.rs `DeltaDiff`). -/
inductive DeltaDiff where
  | Longer
  | Zero
  | Shorter
deriving DecidableEq, Repr

/-- Which child the height information came from (src/node.rs `Direction`). -/
inductive Direction where
  | Left
  | Right
deriving DecidableEq, Repr

/-- A node of the AVL tree (src/node.rs `AvlNode<T>`), instantiated at `T = Int`.
`nil` models an absent child (Rust `Option::None`); `node value diff n_less n_dup l r`
models a node with its `value`, height difference `diff`, the pair
`n_ledu = (n_less, n_dup)`, and the two child pointers.  The same type also
models the tree facade's root slot (src/tree.rs `AvlTree<T>`: `root: Option<AvlNode<T>>`),
with `nil` standing for the empty tree. -/
inductive Node where
  | nil : Node
  | node (value : Int) (diff : Int) (n_less : Nat) (n_dup : Nat) (l : Node) (r : Node) : Node
deriving DecidableEq, Repr

/-- Number of nodes (structural size, ignoring duplicate counters); used as a
termination measure. -/
def nodes : Node → Nat
  | .nil => 0
  | .node _ _ _ _ l r => nodes l + nodes r + 1

/-- src/node.rs `AvlNode::new`: a fresh leaf with `diff = 0` and `n_ledu = (0, 0)`. -/
def new_node (value : Int) : Node := Node.node value 0 0 0 .nil .nil

/-- Read the stored `diff` field (0 on `nil`; only used on real nodes). -/
def get_diff : Node → Int
  | .nil => 0
  | .node _ d _ _ _ _ => d

/-- src/node.rs `AvlNode::len_child_and_self`: `n_ledu.0 + n_ledu.1 + 1` plus the
recursive length of the right child; the `nil` case models the `None => 0`
at every Rust call site. -/
def len_child_and_self : Node → Nat
  | .nil => 0
  | .node _ _ n0 n1 _ r => n0 + n1 + 1 + len_child_and_self r

/-- src/node.rs `AvlNode::search`: BST descent returning the found node's
`n_ledu.1`; `nil` models the `None => None` child cases. -/
def search : Node → Int → Option Nat
  | .nil, _ => none
  | .node v _ _ n1 l r, value =>
    if value = v then some n1
    else if value < v then search l value
    else search r value

/-- src/node.rs `AvlNode::max_child`: descend to the rightmost node. -/
def max_child : Node → Int
  | .nil => 0
  | .node v _ _ _ _ r =>
    match r with
    | .nil => v
    | .node _ _ _ _ _ _ => max_child r

/-- src/node.rs `AvlNode::min_child`: descends one step left and then calls
`max_child` on that child (this is what the source does; the recursive call
is `max_child`, not `min_child`). -/
def min_child : Node → Int
  | .nil => 0
  | .node v _ _ _ l _ =>
    match l with
    | .nil => v
    | .node _ _ _ _ _ _ => max_child l

/-- The `nl.diff == -1` preprocessing block of src/node.rs `AvlNode::rotate`
(the left-right double-rotation setup): rebuilds the left child `nl` before the
single rotation and returns its fields `(value, diff, n_ledu.0, n_ledu.1,
left, right)` afterwards; when `nl.diff != -1` the fields pass through
unchanged.  `none` models a panic. -/
def rotate_pre_left (lv ld : Int) (ln0 ln1 : Nat) (ll lr : Node) :
    Option (Int × Int × Nat × Nat × Node × Node) :=
  if ld = -1 then
    match lr with
    | .nil => none
    | .node cv cd cn0 cn1 cl cr =>
      match (if cd = -1 then some ((1 : Int), (1 : Int))
             else if cd = 0 then some ((0 : Int), (1 : Int))
             else if cd = 1 then some ((0 : Int), (2 : Int))
             else none) with
      | none => none
      | some (cd', d') =>
        some (cv, d',
          len_child_and_self (Node.node lv cd' (len_child_and_self ll) ln1 ll cl), cn1,
          Node.node lv cd' (len_child_and_self ll) ln1 ll cl, cr)
  else some (lv, ld, ln0, ln1, ll, lr)

/-- The `nr.diff == 1` preprocessing block of src/node.rs `AvlNode::rotate`
(the right-left double-rotation setup), mirror of `rotate_pre_left`. -/
def rotate_pre_right (rv rd : Int) (rn0 rn1 : Nat) (rl rr : Node) :
    Option (Int × Int × Nat × Nat × Node × Node) :=
  if rd = 1 then
    match rl with
    | .nil => none
    | .node cv cd cn0 cn1 cl cr =>
      match (if cd = 1 then some ((-1 : Int), (-1 : Int))
             else if cd = 0 then some ((0 : Int), (-1 : Int))
             else if cd = -1 then some ((0 : Int), (-2 : Int))
             else none) with
      | none => none
      | some (cd', d') =>
        some (cv, d', len_child_and_self cl, cn1, cl,
          Node.node rv cd' (len_child_and_self cr) rn1 cr rr)
  else some (rv, rd, rn0, rn1, rl, rr)

/-- The `nl.diff` update table of the single left rotation in src/node.rs
`AvlNode::rotate` (`2 => (-1, 0)`, `1 => (0, 0)`, `0 => (1, -1)`, else panic):
returns `(new nl.diff, new self.diff)`. -/
def rotate_new_diffs_left (ld1 : Int) : Option (Int × Int) :=
  if ld1 = 2 then some (-1, 0)
  else if ld1 = 1 then some (0, 0)
  else if ld1 = 0 then some (1, -1)
  else none

/-- The `nr.diff` update table of the single right rotation in src/node.rs
`AvlNode::rotate`, mirror of `rotate_new_diffs_left`. -/
def rotate_new_diffs_right (rd1 : Int) : Option (Int × Int) :=
  if rd1 = -2 then some (1, 0)
  else if rd1 = -1 then some (0, 0)
  else if rd1 = 0 then some (-1, 1)
  else none

/-- src/node.rs `AvlNode::rotate`. `none` models a Rust `panic!()`; otherwise
returns the node after rotation together with the `bool` the source returns.
The in-place field writes of the source are threaded explicitly: each
`n_ledu.0` write is the source's `len_child_and_self` of the new left child. -/
def rotate (t : Node) : Option (Node × Bool) :=
  match t with
  | .nil => none
  | .node nv nd nn0 nn1 l r =>
    if nd ≤ 1 ∧ -1 ≤ nd then some (Node.node nv nd nn0 nn1 l r, false)
    else if nd = 2 then
      match l with
      | .nil => none
      | .node lv ld ln0 ln1 ll lr =>
        match rotate_pre_left lv ld ln0 ln1 ll lr with
        | none => none
        | some (lv1, ld1, ln01, ln11, ll1, lr1) =>
          match rotate_new_diffs_left ld1 with
          | none => none
          | some (ld2, nd2) =>
            some (Node.node lv1 nd2 (len_child_and_self ll1) ln11 ll1
              (Node.node nv ld2 (len_child_and_self lr1) nn1 lr1 r), true)
    else if nd = -2 then
      match r with
      | .nil => none
      | .node rv rd rn0 rn1 rl rr =>
        match rotate_pre_right rv rd rn0 rn1 rl rr with
        | none => none
        | some (rv1, rd1, rn01, rn11, rl1, rr1) =>
          match rotate_new_diffs_right rd1 with
          | none => none
          | some (rd2, nd2) =>
            some (Node.node rv1 nd2
              (len_child_and_self (Node.node nv rd2 (len_child_and_self l) nn1 l rl1)) rn11
              (Node.node nv rd2 (len_child_and_self l) nn1 l rl1) rr1, true)
    else none

/-- src/node.rs `AvlNode::balance`. `none` models a Rust `panic!()`.  Note the
`Shorter`/`Right` case with the difference reaching 2: the source computes
the signal for the parent from the left child's `diff` but does not call
`rotate` there (the symmetric `Shorter`/`Left` case does). -/
def balance (t : Node) (d_diff : DeltaDiff) (from_dir : Direction) : Option (Node × DeltaDiff) :=
  match d_diff with
  | .Zero => some (t, .Zero)
  | .Longer =>
    match t with
    | .nil => none
    | .node v d n0 n1 l r =>
      match from_dir with
      | .Left =>
        match rotate (Node.node v (d + 1) n0 n1 l r) with
        | none => none
        | some (t2, true) => some (t2, .Zero)
        | some (t2, false) =>
          if get_diff t2 > 0 then some (t2, .Longer) else some (t2, .Zero)
      | .Right =>
        match rotate (Node.node v (d - 1) n0 n1 l r) with
        | none => none
        | some (t2, true) => some (t2, .Zero)
        | some (t2, false) =>
          if get_diff t2 < 0 then some (t2, .Longer) else some (t2, .Zero)
  | .Shorter =>
    match t with
    | .nil => none
    | .node v d n0 n1 l r =>
      match from_dir with
      | .Left =>
        if d - 1 = -2 then
          match r with
          | .nil => none
          | .node _ rd _ _ _ _ =>
            match rotate (Node.node v (d - 1) n0 n1 l r) with
            | none => none
            | some (t2, _) => some (t2, if rd = 0 then DeltaDiff.Zero else DeltaDiff.Shorter)
        else if d - 1 ≤ 1 ∧ -1 ≤ d - 1 then
          if d - 1 ≥ 0 then some (Node.node v (d - 1) n0 n1 l r, .Shorter)
          else some (Node.node v (d - 1) n0 n1 l r, .Zero)
        else none
      | .Right =>
        if d + 1 = 2 then
          match l with
          | .nil => none
          | .node _ ld _ _ _ _ =>
            some (Node.node v (d + 1) n0 n1 l r, if ld = 0 then DeltaDiff.Zero else DeltaDiff.Shorter)
        else if d + 1 ≤ 1 ∧ -1 ≤ d + 1 then
          if d + 1 ≤ 0 then some (Node.node v (d + 1) n0 n1 l r, .Shorter)
          else some (Node.node v (d + 1) n0 n1 l r, .Zero)
        else none

/-- src/node.rs `AvlNode::push_child`: insert a value below this node, returning
the updated node, the propagated `(number_of_less, number_of_duplicates)` pair,
and the height signal.  `none` models a panic inside `balance`/`rotate`. -/
def push_child : Node → Int → Option (Node × (Nat × Nat) × DeltaDiff)
  | .nil, _ => none
  | .node v d n0 n1 l r, value =>
    if value < v then
      match l with
      | .node _ _ _ _ _ _ =>
        match push_child l value with
        | none => none
        | some (l', n_ledu, dd0) =>
          match balance (Node.node v d (n0 + 1) n1 l' r) dd0 .Left with
          | none => none
          | some (t', dd) => some (t', n_ledu, dd)
      | .nil =>
        match balance (Node.node v d (n0 + 1) n1 (new_node value) r) .Longer .Left with
        | none => none
        | some (t', dd) => some (t', (0, 0), dd)
    else if value > v then
      match r with
      | .node _ _ _ _ _ _ =>
        match push_child r value with
        | none => none
        | some (r', n_ledu, dd0) =>
          match balance (Node.node v d n0 n1 l r') dd0 .Right with
          | none => none
          | some (t', dd) => some (t', (n_ledu.1 + n0 + n1 + 1, n_ledu.2), dd)
      | .nil =>
        match balance (Node.node v d n0 n1 l (new_node value)) .Longer .Right with
        | none => none
        | some (t', dd) => some (t', (n0 + n1 + 1, 0), dd)
    else
      some (Node.node v d n0 (n1 + 1) l r, (n0, n1 + 1), .Zero)

mutual

/-- src/node.rs `AvlNode::remove_child`.  `none` models a panic, `.error ()`
the `Err(())` "not found here" result, `.ok` carries the updated node and the
height signal.  On every `Err` path the source performs no mutation, so no
node is returned there. -/
def remove_child (t : Node) (value : Int) : Option (Except Unit (Node × DeltaDiff)) :=
  match t with
  | .nil => none
  | .node v d n0 n1 l r =>
    if value = v then some (.error ())
    else if value < v then
      match hl : l with
      | .nil => some (.error ())
      | .node lv ld ln0 ln1 ll lr =>
        if lv = value then
          if ln1 > 0 then
            match balance (Node.node v d n0 n1 (Node.node lv ld ln0 (ln1 - 1) ll lr) r) .Zero .Left with
            | none => none
            | some (t', dd) => some (.ok (t', dd))
          else
            match remove_reconnect (Node.node lv ld ln0 ln1 ll lr) with
            | none => none
            | some (new_child, dd0, reconnect, n') =>
              let l2 := if reconnect then new_child else n'
              match balance (Node.node v d n0 n1 l2 r) dd0 .Left with
              | none => none
              | some (t', dd) => some (.ok (t', dd))
        else
          match remove_child l value with
          | none => none
          | some (.error ()) => some (.error ())
          | some (.ok (l', dd0)) =>
            match balance (Node.node v d n0 n1 l' r) dd0 .Left with
            | none => none
            | some (t', dd) => some (.ok (t', dd))
    else
      match hr : r with
      | .nil => some (.error ())
      | .node rv rd rn0 rn1 rl rr =>
        if rv = value then
          if rn1 > 0 then
            match balance (Node.node v d n0 n1 l (Node.node rv rd rn0 (rn1 - 1) rl rr)) .Zero .Right with
            | none => none
            | some (t', dd) => some (.ok (t', dd))
          else
            match remove_reconnect (Node.node rv rd rn0 rn1 rl rr) with
            | none => none
            | some (new_child, dd0, reconnect, n') =>
              let r2 := if reconnect then new_child else n'
              match balance (Node.node v d n0 n1 l r2) dd0 .Right with
              | none => none
              | some (t', dd) => some (.ok (t', dd))
        else
          match remove_child r value with
          | none => none
          | some (.error ()) => some (.error ())
          | some (.ok (r', dd0)) =>
            match balance (Node.node v d n0 n1 l r') dd0 .Right with
            | none => none
            | some (t', dd) => some (.ok (t', dd))
termination_by (nodes t, 0)
decreasing_by all_goals (simp_all [Prod.lex_def, nodes]; try omega)

/-- src/node.rs `AvlNode::remove_reconnect`: returns the tuple
`(new_child, d_diff, reconnect, self_after)`; all non-panicking source paths
return `fin = Ok(Some(d_diff))`, so the `Result<Option<_>>` wrapper is folded
into the plain `DeltaDiff`.  In the two-children case the source first writes
`self.value = n_m` and `self.n_ledu.1 = self.search(n_m).unwrap()` and then
calls `self.remove_child(n_m)` on the modified node. -/
def remove_reconnect (t : Node) : Option (Node × DeltaDiff × Bool × Node) :=
  match t with
  | .nil => none
  | .node v d n0 n1 l r =>
    match hl : l, hr : r with
    | .node _ _ _ _ _ _, .node _ _ _ _ _ _ =>
      let n_m := if d ≥ 0 then max_child l else min_child r
      match search (Node.node n_m d n0 n1 l r) n_m with
      | none => none
      | some s1 =>
        match remove_child (Node.node n_m d n0 s1 l r) n_m with
        | none => none
        | some (.error ()) => none
        | some (.ok (t3, dd)) => some (.nil, dd, false, t3)
    | .node _ _ _ _ _ _, .nil =>
      match balance (Node.node v d n0 n1 l r) .Shorter .Left with
      | none => none
      | some (t', dd) => some (l, dd, true, t')
    | .nil, .node _ _ _ _ _ _ =>
      match balance (Node.node v d n0 n1 l r) .Shorter .Right with
      | none => none
      | some (t', dd) => some (r, dd, true, t')
    | .nil, .nil => some (.nil, .Shorter, true, Node.node v d n0 n1 l r)
termination_by (nodes t, 1)
decreasing_by all_goals (simp_all [Prod.lex_def, nodes]; try omega)

end

/-- src/node.rs `AvlNode::pop_max_child`.  `none` models a panic, `.error ()`
the `Err(())` when the right child is absent. -/
def pop_max_child : Node → Option (Except Unit ((Int × DeltaDiff) × Node))
  | .nil => none
  | .node v d n0 n1 l r =>
    match r with
    | .nil => some (.error ())
    | .node rv rd rn0 rn1 rl rr =>
      match rr with
      | .node _ _ _ _ _ _ =>
        match pop_max_child r with
        | none => none
        | some (.error ()) => some (.error ())
        | some (.ok ((value, dd0), r')) =>
          match balance (Node.node v d n0 n1 l r') dd0 .Right with
          | none => none
          | some (t', dd) => some (.ok ((value, dd), t'))
      | .nil =>
        if rn1 > 0 then
          match balance (Node.node v d n0 n1 l (Node.node rv rd rn0 (rn1 - 1) rl rr)) .Zero .Right with
          | none => none
          | some (t', dd) => some (.ok ((rv, dd), t'))
        else
          match balance (Node.node v d n0 n1 l rl) .Shorter .Right with
          | none => none
          | some (t', dd) => some (.ok ((rv, dd), t'))

/-- src/node.rs `AvlNode::pop_max_all_child`: pops the rightmost node with its
whole duplicate count; the innermost case signals `DeltaDiff::Zero` (as the
source does). -/
def pop_max_all_child : Node → Option (Except Unit (((Int × Nat) × DeltaDiff) × Node))
  | .nil => none
  | .node v d n0 n1 l r =>
    match r with
    | .nil => some (.error ())
    | .node rv rd rn0 rn1 rl rr =>
      match rr with
      | .node _ _ _ _ _ _ =>
        match pop_max_all_child r with
        | none => none
        | some (.error ()) => some (.error ())
        | some (.ok ((value, dd0), r')) =>
          match balance (Node.node v d n0 n1 l r') dd0 .Right with
          | none => none
          | some (t', dd) => some (.ok ((value, dd), t'))
      | .nil =>
        match balance (Node.node v d n0 n1 l rl) .Zero .Right with
        | none => none
        | some (t', dd) => some (.ok (((rv, rn1), dd), t'))

/-- src/node.rs `AvlNode::pop_min_child` (mirror of `pop_max_child`). -/
def pop_min_child : Node → Option (Except Unit ((Int × DeltaDiff) × Node))
  | .nil => none
  | .node v d n0 n1 l r =>
    match l with
    | .nil => some (.error ())
    | .node lv ld ln0 ln1 ll lr =>
      match ll with
      | .node _ _ _ _ _ _ =>
        match pop_min_child l with
        | none => none
        | some (.error ()) => some (.error ())
        | some (.ok ((value, dd0), l')) =>
          match balance (Node.node v d n0 n1 l' r) dd0 .Left with
          | none => none
          | some (t', dd) => some (.ok ((value, dd), t'))
      | .nil =>
        if ln1 > 0 then
          match balance (Node.node v d n0 n1 (Node.node lv ld ln0 (ln1 - 1) ll lr) r) .Zero .Left with
          | none => none
          | some (t', dd) => some (.ok ((lv, dd), t'))
        else
          match balance (Node.node v d n0 n1 lr r) .Shorter .Left with
          | none => none
          | some (t', dd) => some (.ok ((lv, dd), t'))

/-- src/node.rs `AvlNode::pop_min_all_child`: the innermost case signals
`DeltaDiff::Shorter` (as the source does). -/
def pop_min_all_child : Node → Option (Except Unit (((Int × Nat) × DeltaDiff) × Node))
  | .nil => none
  | .node v d n0 n1 l r =>
    match l with
    | .nil => some (.error ())
    | .node lv ld ln0 ln1 ll lr =>
      match ll with
      | .node _ _ _ _ _ _ =>
        match pop_min_all_child l with
        | none => none
        | some (.error ()) => some (.error ())
        | some (.ok ((value, dd0), l')) =>
          match balance (Node.node v d n0 n1 l' r) dd0 .Left with
          | none => none
          | some (t', dd) => some (.ok ((value, dd), t'))
      | .nil =>
        match balance (Node.node v d n0 n1 lr r) .Shorter .Left with
        | none => none
        | some (t', dd) => some (.ok (((lv, ln1), dd), t'))

/-- src/node.rs `AvlNode::height_child`: descend only into the side selected by
the stored `diff` sign. -/
def height_child : Node → Nat
  | .nil => 0
  | .node _ d _ _ l r =>
    if d ≥ 0 then
      match l with
      | .nil => 1
      | .node _ _ _ _ _ _ => 1 + height_child l
    else
      match r with
      | .nil => 1
      | .node _ _ _ _ _ _ => 1 + height_child r

/-- src/tree.rs `AvlTree::push`: empty root gets a fresh node and `(0, 0)`;
otherwise delegate to `push_child` and return its `n_ledu` pair. -/
def tree_push (t : Node) (value : Int) : Option ((Nat × Nat) × Node) :=
  match t with
  | .nil => some ((0, 0), new_node value)
  | .node _ _ _ _ _ _ =>
    match push_child t value with
    | none => none
    | some (t', n_ledu, _) => some (n_ledu, t')

/-- src/tree.rs `AvlTree::isin`. -/
def tree_isin (t : Node) (value : Int) : Bool :=
  match search t value with
  | some _ => true
  | none => false

/-- src/tree.rs `AvlTree::count`: `dup + 1` when found, 0 otherwise. -/
def tree_count (t : Node) (value : Int) : Nat :=
  match search t value with
  | some dup => dup + 1
  | none => 0

/-- src/tree.rs `AvlTree::remove`.  Returns the `Result` flag together with the
root slot afterwards; `none` models a panic (the `panic!()` after
`remove_child` fails, or an `unwrap` of the root search). -/
def tree_remove (t : Node) (value : Int) : Option (Except Unit Unit × Node) :=
  match t with
  | .nil => some (.error (), .nil)
  | .node v d n0 n1 l r =>
    if v = value then
      if n1 > 0 then some (.ok (), Node.node v d n0 (n1 - 1) l r)
      else
        match l, r with
        | .node _ _ _ _ _ _, .node _ _ _ _ _ _ =>
          let n_m := if d ≥ 0 then max_child l else min_child r
          match search (Node.node n_m d n0 n1 l r) n_m with
          | none => none
          | some s1 =>
            match remove_child (Node.node n_m d n0 s1 l r) n_m with
            | none => none
            | some (.error ()) => none
            | some (.ok (t3, _)) => some (.ok (), t3)
        | .node lv ld ln0 ln1 ll lr, .nil => some (.ok (), Node.node lv ld ln0 ln1 ll lr)
        | .nil, .node rv rd rn0 rn1 rl rr => some (.ok (), Node.node rv rd rn0 rn1 rl rr)
        | .nil, .nil => some (.ok (), .nil)
    else
      match remove_child t value with
      | none => none
      | some (.error ()) => some (.error (), Node.node v d n0 n1 l r)
      | some (.ok (t', _)) => some (.ok (), t')

/-- src/tree.rs `AvlTree::max`. -/
def tree_max (t : Node) : Option Int :=
  match t with
  | .nil => none
  | .node _ _ _ _ _ _ => some (max_child t)

/-- src/tree.rs `AvlTree::min` (delegates to `min_child`). -/
def tree_min (t : Node) : Option Int :=
  match t with
  | .nil => none
  | .node _ _ _ _ _ _ => some (min_child t)

/-- src/tree.rs `AvlTree::pop_max`: the first component is the popped value
(`none` when the tree is empty), the second the root slot afterwards; an
outer `none` models a panic (the `.unwrap()` of `pop_max_child`, or a panic
inside `balance`). -/
def tree_pop_max (t : Node) : Option (Option Int × Node) :=
  match t with
  | .nil => some (none, .nil)
  | .node v d n0 n1 l r =>
    match r with
    | .node _ _ _ _ _ _ =>
      match pop_max_child (Node.node v d n0 n1 l r) with
      | none => none
      | some (.error ()) => none
      | some (.ok ((value, _), t')) => some (some value, t')
    | .nil =>
      if n1 > 0 then some (some v, Node.node v d n0 (n1 - 1) l r)
      else
        match l with
        | .node lv ld ln0 ln1 ll lr => some (some v, Node.node lv ld ln0 ln1 ll lr)
        | .nil => some (some v, .nil)

/-- src/tree.rs `AvlTree::pop_max_all`. -/
def tree_pop_max_all (t : Node) : Option (Option (Int × Nat) × Node) :=
  match t with
  | .nil => some (none, .nil)
  | .node v d n0 n1 l r =>
    match r with
    | .node _ _ _ _ _ _ =>
      match pop_max_all_child (Node.node v d n0 n1 l r) with
      | none => none
      | some (.error ()) => none
      | some (.ok ((value, _), t')) => some (some value, t')
    | .nil =>
      match l with
      | .node lv ld ln0 ln1 ll lr => some (some (v, n1), Node.node lv ld ln0 ln1 ll lr)
      | .nil => some (some (v, n1), .nil)

/-- src/tree.rs `AvlTree::pop_min`. -/
def tree_pop_min (t : Node) : Option (Option Int × Node) :=
  match t with
  | .nil => some (none, .nil)
  | .node v d n0 n1 l r =>
    match l with
    | .node _ _ _ _ _ _ =>
      match pop_min_child (Node.node v d n0 n1 l r) with
      | none => none
      | some (.error ()) => none
      | some (.ok ((value, _), t')) => some (some value, t')
    | .nil =>
      if n1 > 0 then some (some v, Node.node v d n0 (n1 - 1) l r)
      else
        match r with
        | .node rv rd rn0 rn1 rl rr => some (some v, Node.node rv rd rn0 rn1 rl rr)
        | .nil => some (some v, .nil)

/-- src/tree.rs `AvlTree::pop_min_all`. -/
def tree_pop_min_all (t : Node) : Option (Option (Int × Nat) × Node) :=
  match t with
  | .nil => some (none, .nil)
  | .node v d n0 n1 l r =>
    match l with
    | .node _ _ _ _ _ _ =>
      match pop_min_all_child (Node.node v d n0 n1 l r) with
      | none => none
      | some (.error ()) => none
      | some (.ok ((value, _), t')) => some (some value, t')
    | .nil =>
      match r with
      | .node rv rd rn0 rn1 rl rr => some (some (v, n1), Node.node rv rd rn0 rn1 rl rr)
      | .nil => some (some (v, n1), .nil)

/-- src/tree.rs `AvlTree::len`. -/
def tree_len (t : Node) : Nat := len_child_and_self t

/-- src/tree.rs `AvlTree::height`. -/
def tree_height (t : Node) : Nat := height_child t

/-- Reference definition: the number of elements actually stored in a subtree,
counting duplicates (each node contributes `n_dup + 1`), computed without
consulting any `n_less` field. -/
def sizeN : Node → Nat
  | .nil => 0
  | .node _ _ _ n1 l r => sizeN l + sizeN r + n1 + 1

/-- Reference definition: in-order listing of the stored multiset
(each node's value repeated `n_dup + 1` times). -/
def toList : Node → List Int
  | .nil => []
  | .node v _ _ n1 l r => toList l ++ List.replicate (n1 + 1) v ++ toList r

/-- Reference definition: `x` occurs at some node of the tree. -/
def memB : Node → Int → Bool
  | .nil, _ => false
  | .node v _ _ _ l r, x => (x = v) || memB l x || memB r x

/-- Reference definition: number of stored elements (with multiplicity)
strictly less than `x`. -/
def countLess (t : Node) (x : Int) : Nat := (toList t).countP (fun y => y < x)

/-- Reference definition: the true height, recomputed from the structure. -/
def heightR : Node → Nat
  | .nil => 0
  | .node _ _ _ _ l r => 1 + max (heightR l) (heightR r)

/-- Reference definition: every node's recomputed child heights differ by at
most one (the AVL balance invariant, independent of the stored `diff`). -/
def balancedB : Node → Bool
  | .nil => true
  | .node _ _ _ _ l r =>
    (heightR l ≤ heightR r + 1) && (heightR r ≤ heightR l + 1) && balancedB l && balancedB r

/-- Reference definition: `p` holds for every stored value. -/
def allB (p : Int → Bool) : Node → Bool
  | .nil => true
  | .node v _ _ _ l r => p v && allB p l && allB p r

/-- Reference definition: binary-search-tree ordering on values. -/
def isBST : Node → Bool
  | .nil => true
  | .node v _ _ _ l r => allB (fun y => y < v) l && allB (fun y => v < y) r && isBST l && isBST r

/-- Reference definition: every node's stored `n_less` equals the element count
(with duplicates) of its left subtree. -/
def lessOk : Node → Bool
  | .nil => true
  | .node _ _ n0 _ l r => (n0 = sizeN l) && lessOk l && lessOk r

/-- Run a whole sequence of pushes from the empty tree, `none` on panic. -/
def push_seq (vs : List Int) : Option Node :=
  vs.foldl (fun acc v => acc.bind (fun t => (tree_push t v).map (fun p => p.2))) (some .nil)

/-- Run a whole sequence of pushes from the empty tree, collecting the returned
`(rank, dup)` pairs; `none` on panic. -/
def push_results (vs : List Int) : Option (List (Nat × Nat)) :=
  (vs.foldl
    (fun acc v =>
      acc.bind (fun p => (tree_push p.1 v).map (fun q => (q.2, p.2 ++ [q.1]))))
    (some (Node.nil, []))).map (fun p => p.2)

/-- Run a `remove` on an optional state, keeping the state only when the
removal reports success; `none` also on panic. -/
def run_remove (o : Option Node) (x : Int) : Option Node :=
  o.bind (fun t =>
    match tree_remove t x with
    | some (.ok (), t') => some t'
    | some (.error (), _) => none
    | none => none)

/-- Reference observer: the stored `n_less` field of the node holding `x`,
located by the same comparison descent as `search`. -/
def storedLess : Node → Int → Option Nat
  | .nil, _ => none
  | .node v _ n0 _ l r, x =>
    if x = v then some n0
    else if x < v then storedLess l x
    else storedLess r x

/-- C7: starting from the empty tree, pushing 10, 20, 30 sequentially returns
(0,0), (1,0), (2,0); a following push(20) returns (1,1); then count(20)
returns 2 and len() returns 4; after one remove(20), count(20) returns 1 and
len() returns 3. -/
theorem avl_C7 :
    push_results [10, 20, 30, 20] = some [(0, 0), (1, 0), (2, 0), (1, 1)]
    ∧ (push_seq [10, 20, 30, 20]).map (fun t => (tree_count t 20, tree_len t)) = some (2, 4)
    ∧ (run_remove (push_seq [10, 20, 30, 20]) 20).map (fun t => (tree_count t 20, tree_len t))
        = some (1, 3) := by
  refine ⟨by decide, by decide, ?_⟩
  simp +decide [run_remove, push_seq, tree_push, tree_remove, push_child, balance, rotate,
    new_node, get_diff, len_child_and_self, tree_count, tree_len, search]

/-- C5 fails on the code: after pushes [2, 1, 3] and one successful remove(1)
(n = 3, r = 1), `len()` reports 3 instead of n − r = 2; the tree actually holds
2 elements, but the root keeps a stale `n_less`.  (`remove_child` never
decrements the `n_ledu.0` of the ancestors of the removed node.) -/
theorem avl_C5_bug :
    (run_remove (push_seq [2, 1, 3]) 1).map (fun t => (tree_len t, sizeN t)) = some (3, 2) := by
  simp +decide [run_remove, push_seq, tree_push, tree_remove, remove_child, remove_reconnect,
    balance, rotate, search, max_child, min_child, new_node, get_diff, len_child_and_self,
    push_child, tree_len, sizeN]

/-- C1 fails on the code: after pushes [2, 1, 3] and one successful remove(1),
`push(4)` returns rank 3, while only 2 stored elements (2 and 3) are strictly
less than 4 — the stale `n_less` left behind by the removal corrupts the rank. -/
theorem avl_C1_bug :
    ((run_remove (push_seq [2, 1, 3]) 1).bind
      (fun t => (tree_push t 4).map (fun p => (p.1.1, countLess t 4)))) = some (3, 2) := by
  simp +decide [run_remove, push_seq, tree_push, tree_remove, remove_child, remove_reconnect,
    balance, rotate, search, max_child, min_child, new_node, get_diff, len_child_and_self,
    push_child, countLess, toList]

/-- C2 fails on the code: on the tree built by pushes [4, 2, 5, 3] (a non-empty
tree), `min()` returns 3 although 2 is stored — `min_child` descends one step
left and then takes the maximum of that subtree instead of its minimum. -/
theorem avl_C2_bug :
    (push_seq [4, 2, 5, 3]).map (fun t => (tree_min t, memB t 2)) = some (some 3, true) := by
  decide

/-- C3 fails on the code: the tree built by pushes [5, 3, 8, 2, 4] satisfies
the balance, BST and count invariants, yet after the successful remove(8) the
recomputed child heights of the root differ by 2 — the `Shorter`/`Right`
branch of `balance` never calls `rotate`. -/
theorem avl_C3_bug :
    (push_seq [5, 3, 8, 2, 4]).map (fun t => (balancedB t, isBST t, lessOk t))
        = some (true, true, true)
    ∧ (run_remove (push_seq [5, 3, 8, 2, 4]) 8).map balancedB = some false := by
  refine ⟨by decide, ?_⟩
  simp +decide [run_remove, push_seq, tree_push, tree_remove, remove_child, remove_reconnect,
    balance, rotate, search, max_child, min_child, new_node, get_diff, len_child_and_self,
    push_child, balancedB, heightR]

/-- C8 fails on the code: on the tree built by pushes [50, 20, 70, 60, 10, 30, 5],
the first `pop_max()` returns 70 but the second `pop_max()` panics (the stored
difference reaches 3 because the missed rotation of the first pop was never
performed), instead of continuing the non-increasing sequence. -/
theorem avl_C8_bug :
    (push_seq [50, 20, 70, 60, 10, 30, 5]).bind
      (fun t => (tree_pop_max t).map (fun p => (p.1, tree_pop_max p.2)))
      = some (some 70, none) := by
  decide

/-- C4 fails as stated: on the tree built by pushes [2, 1, 3] alone, the node
holding 3 stores `n_less = 0` (the element count of its left subtree), while
the whole tree holds 2 elements strictly less than 3 — the stored field is a
left-subtree count, not a whole-tree rank, for non-root nodes. -/
theorem avl_C4_counterexample :
    (push_seq [2, 1, 3]).map (fun t => (storedLess t 3, countLess t 3)) = some (some 0, 2) := by
  decide

/-- C6 fails as stated: pushing 20 into the tree built from [10, 20, 30] — where
the stored duplicate count of 20 is still 0 — returns (1, 1): the second
component is the duplicate count after the increment, not before it. -/
theorem avl_C6_counterexample :
    (push_seq [10, 20, 30]).bind
      (fun t => (tree_push t 20).map (fun p => (p.1, search t 20))) = some ((1, 1), some 0) := by
  decide

/-- C10: for every tree and value, `isin` returns true exactly when `count`
is positive; both are computed from the same `search` descent. -/
theorem avl_C10 (t : Node) (x : Int) : tree_isin t x = decide (0 < tree_count t x) := by
  unfold tree_isin tree_count
  cases search t x <;> simp

/-- Helper for C9: removing a value that occurs nowhere in the (sub)tree always
reports `Err(())` without panicking, for an arbitrary non-empty subtree. -/
theorem remove_child_notFound (t : Node) (x : Int) (hne : t ≠ .nil) (h : memB t x = false) :
    remove_child t x = some (.error ()) := by
  induction t with
  | nil => exact absurd rfl hne
  | node v d n0 n1 l r ihl ihr =>
    simp only [memB, Bool.or_eq_false_iff, decide_eq_false_iff_not] at h
    obtain ⟨⟨hxv, hl⟩, hr⟩ := h
    cases l with
    | nil =>
      cases r with
      | nil =>
        rw [remove_child, if_neg hxv]
        split <;> rfl
      | node rv rd rn0 rn1 rl rr =>
        have hrv : ¬ rv = x := by
          have h2 := hr
          simp only [memB, Bool.or_eq_false_iff, decide_eq_false_iff_not] at h2
          exact fun hc => h2.1.1 hc.symm
        rw [remove_child, if_neg hxv]
        by_cases hlt : x < v
        · rw [if_pos hlt]
        · rw [if_neg hlt, if_neg hrv, ihr (by intro hc; cases hc) hr]
    | node lv ld ln0 ln1 ll lr =>
      have hlv : ¬ lv = x := by
        have h2 := hl
        simp only [memB, Bool.or_eq_false_iff, decide_eq_false_iff_not] at h2
        exact fun hc => h2.1.1 hc.symm
      cases r with
      | nil =>
        rw [remove_child, if_neg hxv]
        by_cases hlt : x < v
        · rw [if_pos hlt, if_neg hlv, ihl (by intro hc; cases hc) hl]
        · rw [if_neg hlt]
      | node rv rd rn0 rn1 rl rr =>
        have hrv : ¬ rv = x := by
          have h2 := hr
          simp only [memB, Bool.or_eq_false_iff, decide_eq_false_iff_not] at h2
          exact fun hc => h2.1.1 hc.symm
        rw [remove_child, if_neg hxv]
        by_cases hlt : x < v
        · rw [if_pos hlt, if_neg hlv, ihl (by intro hc; cases hc) hl]
        · rw [if_neg hlt, if_neg hrv, ihr (by intro hc; cases hc) hr]

/-- C9: `pop_min`, `pop_max`, `pop_min_all` and `pop_max_all` on the empty tree
return the absent result and leave the tree empty without panicking, and
`remove(x)` on any tree in which `x` is absent (including the empty tree)
returns the not-found result, does not panic, and leaves the tree unchanged. -/
theorem avl_C9 (t : Node) (x : Int) (h : memB t x = false) :
    tree_remove t x = some (.error (), t)
    ∧ tree_pop_min Node.nil = some (none, Node.nil)
    ∧ tree_pop_max Node.nil = some (none, Node.nil)
    ∧ tree_pop_min_all Node.nil = some (none, Node.nil)
    ∧ tree_pop_max_all Node.nil = some (none, Node.nil) := by
  refine ⟨?_, rfl, rfl, rfl, rfl⟩
  cases t with
  | nil => rfl
  | node v d n0 n1 l r =>
    have hxv : ¬ v = x := by
      simp only [memB, Bool.or_eq_false_iff, decide_eq_false_iff_not] at h
      intro hcon; exact h.1.1 hcon.symm
    simp only [tree_remove.eq_def]
    rw [if_neg hxv, remove_child_notFound _ x (by intro hcon; cases hcon) h]

/-- Witness for C9 at the tree built from pushes [2, 1, 3] and the absent
value 7. -/
theorem avl_C9_witness :
    tree_remove (Node.node 2 0 1 0 (Node.node 1 0 0 0 .nil .nil) (Node.node 3 0 0 0 .nil .nil)) 7
        = some (.error (), Node.node 2 0 1 0 (Node.node 1 0 0 0 .nil .nil) (Node.node 3 0 0 0 .nil .nil))
    ∧ tree_pop_min Node.nil = some (none, Node.nil)
    ∧ tree_pop_max Node.nil = some (none, Node.nil)
    ∧ tree_pop_min_all Node.nil = some (none, Node.nil)
    ∧ tree_pop_max_all Node.nil = some (none, Node.nil) :=
  avl_C9 (Node.node 2 0 1 0 (Node.node 1 0 0 0 .nil .nil) (Node.node 3 0 0 0 .nil .nil)) 7 (by decide)

/-- Helper for C6: pushing a value already present at some node returns the
found node's duplicate counter after the increment as the second component. -/
theorem push_child_found (t : Node) (x : Int) (k : Nat) (h : search t x = some k) :
    ∃ t' r0, push_child t x = some (t', (r0, k + 1), .Zero) := by
  induction t with
  | nil => simp [search] at h
  | node v d n0 n1 l r ihl ihr =>
    rw [search] at h
    by_cases hxv : x = v
    · rw [if_pos hxv] at h
      injection h with h
      subst hxv
      refine ⟨Node.node x d n0 (n1 + 1) l r, n0, ?_⟩
      cases l <;> cases r <;> simp [push_child, h]
    · rw [if_neg hxv] at h
      by_cases hlt : x < v
      · rw [if_pos hlt] at h
        cases l with
        | nil => simp [search] at h
        | node lv ld l0 l1 ll lr =>
          obtain ⟨l', r0, ih⟩ := ihl h
          refine ⟨Node.node v d (n0 + 1) n1 l' r, r0, ?_⟩
          cases r <;> (rw [push_child, if_pos hlt]; simp only [ih, balance])
      · rw [if_neg hlt] at h
        have hgt : x > v := by omega
        cases r with
        | nil => simp [search] at h
        | node rv rd rn0 rn1 rl rr =>
          obtain ⟨r', r0, ih⟩ := ihr h
          refine ⟨Node.node v d n0 n1 l r', r0 + n0 + n1 + 1, ?_⟩
          cases l <;> (rw [push_child, if_neg hlt, if_pos hgt]; simp only [ih, balance])

/-- C6 (amended): for every tree and every value `x` stored in it (found with
duplicate counter `k` by `search`), `push(x)` returns as second component
`k + 1` — the duplicate count after the increment, i.e. the number of copies
of `x` stored before the push — not the pre-increment counter. -/
theorem avl_C6 (t : Node) (x : Int) (k : Nat) (h : search t x = some k) :
    ∃ t' r0, tree_push t x = some ((r0, k + 1), t') := by
  cases t with
  | nil => simp [search] at h
  | node v d n0 n1 l r =>
    obtain ⟨t', r0, hp⟩ := push_child_found _ x k h
    exact ⟨t', r0, by simp [tree_push, hp]⟩

/-- Witness for C6 at the tree built from pushes [10, 20, 30] and the stored
value 20 (whose duplicate counter before the push is 0). -/
theorem avl_C6_witness :
    ∃ t' r0,
      tree_push (Node.node 20 0 1 0 (Node.node 10 0 0 0 .nil .nil) (Node.node 30 0 0 0 .nil .nil)) 20
        = some ((r0, 0 + 1), t') :=
  avl_C6 (Node.node 20 0 1 0 (Node.node 10 0 0 0 .nil .nil) (Node.node 30 0 0 0 .nil .nil)) 20 0
    (by decide)

/-- Unfolding characterisation of `lessOk` at a node. -/
theorem lessOk_node (v d : Int) (n0 n1 : Nat) (l r : Node) :
    lessOk (Node.node v d n0 n1 l r) = true ↔ (n0 = sizeN l ∧ lessOk l = true ∧ lessOk r = true) := by
  simp [lessOk, Bool.and_eq_true, decide_eq_true_eq, and_assoc]

/-- When the count invariant holds, `len_child_and_self` computes the true
element count. -/
theorem lessOk_len (t : Node) (h : lessOk t = true) : len_child_and_self t = sizeN t := by
  induction t with
  | nil => rfl
  | node v d n0 n1 l r ihl ihr =>
    rw [lessOk_node] at h
    obtain ⟨h0, hl, hr⟩ := h
    simp only [len_child_and_self, sizeN, ihr hr, h0]
    omega

/-- Definitional unfolding of `balance` for the `Longer`/`Left` case. -/
theorem balance_longer_left (v d : Int) (n0 n1 : Nat) (l r : Node) :
    balance (Node.node v d n0 n1 l r) .Longer .Left =
      match rotate (Node.node v (d + 1) n0 n1 l r) with
      | none => none
      | some (t2, true) => some (t2, .Zero)
      | some (t2, false) =>
        if get_diff t2 > 0 then some (t2, .Longer) else some (t2, .Zero) := rfl

/-- Definitional unfolding of `balance` for the `Longer`/`Right` case. -/
theorem balance_longer_right (v d : Int) (n0 n1 : Nat) (l r : Node) :
    balance (Node.node v d n0 n1 l r) .Longer .Right =
      match rotate (Node.node v (d - 1) n0 n1 l r) with
      | none => none
      | some (t2, true) => some (t2, .Zero)
      | some (t2, false) =>
        if get_diff t2 < 0 then some (t2, .Longer) else some (t2, .Zero) := rfl

/-- Definitional unfolding of `balance` for the `Shorter`/`Left` case. -/
theorem balance_shorter_left (v d : Int) (n0 n1 : Nat) (l r : Node) :
    balance (Node.node v d n0 n1 l r) .Shorter .Left =
      (if d - 1 = -2 then
        match r with
        | .nil => none
        | .node _ rd _ _ _ _ =>
          match rotate (Node.node v (d - 1) n0 n1 l r) with
          | none => none
          | some (t2, _) => some (t2, if rd = 0 then DeltaDiff.Zero else DeltaDiff.Shorter)
      else if d - 1 ≤ 1 ∧ -1 ≤ d - 1 then
        if d - 1 ≥ 0 then some (Node.node v (d - 1) n0 n1 l r, .Shorter)
        else some (Node.node v (d - 1) n0 n1 l r, .Zero)
      else none) := rfl

/-- Definitional unfolding of `balance` for the `Shorter`/`Right` case. -/
theorem balance_shorter_right (v d : Int) (n0 n1 : Nat) (l r : Node) :
    balance (Node.node v d n0 n1 l r) .Shorter .Right =
      (if d + 1 = 2 then
        match l with
        | .nil => none
        | .node _ ld _ _ _ _ =>
          some (Node.node v (d + 1) n0 n1 l r, if ld = 0 then DeltaDiff.Zero else DeltaDiff.Shorter)
      else if d + 1 ≤ 1 ∧ -1 ≤ d + 1 then
        if d + 1 ≤ 0 then some (Node.node v (d + 1) n0 n1 l r, .Shorter)
        else some (Node.node v (d + 1) n0 n1 l r, .Zero)
      else none) := rfl

/-- Definitional unfolding of `rotate` at a node. -/
theorem rotate_node_eq (nv nd : Int) (nn0 nn1 : Nat) (l r : Node) :
    rotate (Node.node nv nd nn0 nn1 l r) =
      (if nd ≤ 1 ∧ -1 ≤ nd then some (Node.node nv nd nn0 nn1 l r, false)
      else if nd = 2 then
        match l with
        | .nil => none
        | .node lv ld ln0 ln1 ll lr =>
          match rotate_pre_left lv ld ln0 ln1 ll lr with
          | none => none
          | some (lv1, ld1, ln01, ln11, ll1, lr1) =>
            match rotate_new_diffs_left ld1 with
            | none => none
            | some (ld2, nd2) =>
              some (Node.node lv1 nd2 (len_child_and_self ll1) ln11 ll1
                (Node.node nv ld2 (len_child_and_self lr1) nn1 lr1 r), true)
      else if nd = -2 then
        match r with
        | .nil => none
        | .node rv rd rn0 rn1 rl rr =>
          match rotate_pre_right rv rd rn0 rn1 rl rr with
          | none => none
          | some (rv1, rd1, rn01, rn11, rl1, rr1) =>
            match rotate_new_diffs_right rd1 with
            | none => none
            | some (rd2, nd2) =>
              some (Node.node rv1 nd2
                (len_child_and_self (Node.node nv rd2 (len_child_and_self l) nn1 l rl1)) rn11
                (Node.node nv rd2 (len_child_and_self l) nn1 l rl1) rr1, true)
      else none) := by
  cases l <;> cases r <;> rfl

/-- The left double-rotation preprocessing preserves the count invariant of the
pieces it returns and accounts for every element of the original left child. -/
theorem rotate_pre_left_ok (lv ld : Int) (ln0 ln1 : Nat) (ll lr : Node)
    (a b : Int) (c e : Nat) (L R : Node)
    (hok : lessOk (Node.node lv ld ln0 ln1 ll lr) = true)
    (h : rotate_pre_left lv ld ln0 ln1 ll lr = some (a, b, c, e, L, R)) :
    lessOk L = true ∧ lessOk R = true
    ∧ sizeN L + sizeN R + e = sizeN ll + sizeN lr + ln1 := by
  rw [lessOk_node] at hok
  obtain ⟨h0, hll, hlr⟩ := hok
  unfold rotate_pre_left at h
  split_ifs at h with hld
  · split at h
    · cases h
    · split at h
      · cases h
      · rename_i cv cd cn0 cn1 cl cr opt cd' d' heq
        rw [lessOk_node] at hlr
        obtain ⟨hc0, hcl, hcr⟩ := hlr
        simp only [Option.some.injEq, Prod.mk.injEq] at h
        obtain ⟨h1, h2, h3, h4, h5, h6⟩ := h
        subst h1; subst h4; subst h5; subst h6
        refine ⟨?_, hcr, ?_⟩
        · rw [lessOk_node]
          exact ⟨lessOk_len ll hll, hll, hcl⟩
        · simp only [sizeN]
          omega
  · simp only [Option.some.injEq, Prod.mk.injEq] at h
    obtain ⟨h1, h2, h3, h4, h5, h6⟩ := h
    subst h1; subst h4; subst h5; subst h6
    exact ⟨hll, hlr, rfl⟩

/-- Mirror of `rotate_pre_left_ok` for the right preprocessing. -/
theorem rotate_pre_right_ok (rv rd : Int) (rn0 rn1 : Nat) (rl rr : Node)
    (a b : Int) (c e : Nat) (L R : Node)
    (hok : lessOk (Node.node rv rd rn0 rn1 rl rr) = true)
    (h : rotate_pre_right rv rd rn0 rn1 rl rr = some (a, b, c, e, L, R)) :
    lessOk L = true ∧ lessOk R = true
    ∧ sizeN L + sizeN R + e = sizeN rl + sizeN rr + rn1 := by
  rw [lessOk_node] at hok
  obtain ⟨h0, hrl, hrr⟩ := hok
  unfold rotate_pre_right at h
  split_ifs at h with hrd
  · split at h
    · cases h
    · split at h
      · cases h
      · rename_i cv cd cn0 cn1 cl cr opt cd' d' heq
        rw [lessOk_node] at hrl
        obtain ⟨hc0, hcl, hcr⟩ := hrl
        simp only [Option.some.injEq, Prod.mk.injEq] at h
        obtain ⟨h1, h2, h3, h4, h5, h6⟩ := h
        subst h1; subst h4; subst h5; subst h6
        refine ⟨hcl, ?_, ?_⟩
        · rw [lessOk_node]
          exact ⟨lessOk_len cr hcr, hcr, hrr⟩
        · simp only [sizeN]
          omega
  · simp only [Option.some.injEq, Prod.mk.injEq] at h
    obtain ⟨h1, h2, h3, h4, h5, h6⟩ := h
    subst h1; subst h4; subst h5; subst h6
    exact ⟨hrl, hrr, rfl⟩

/-- `rotate` preserves the `less_count` invariant and the stored multiset
size: the rotation code recomputes every affected `n_ledu.0` via
`len_child_and_self`. -/
theorem rotate_lessOk (t t' : Node) (b : Bool) (hok : lessOk t = true)
    (h : rotate t = some (t', b)) : lessOk t' = true ∧ sizeN t' = sizeN t := by
  cases t with
  | nil => simp [rotate] at h
  | node nv nd nn0 nn1 l r =>
    have hok0 := hok
    rw [lessOk_node] at hok0
    obtain ⟨h0, hl, hr⟩ := hok0
    rw [rotate_node_eq] at h
    split_ifs at h with h1 h2 h3
    · simp only [Option.some.injEq, Prod.mk.injEq] at h
      obtain ⟨h4, h5⟩ := h
      subst h4
      exact ⟨hok, rfl⟩
    · split at h
      · cases h
      · rename_i lv ld ln0 ln1 ll lr
        split at h
        · cases h
        · rename_i lv1 ld1 ln01 ln11 ll1 lr1 hpre
          split at h
          · cases h
          · rename_i ld2 nd2 hgd
            simp only [Option.some.injEq, Prod.mk.injEq] at h
            obtain ⟨h4, h5⟩ := h
            subst h4
            obtain ⟨hL, hR, hsz⟩ := rotate_pre_left_ok lv ld ln0 ln1 ll lr _ _ _ _ _ _ hl hpre
            constructor
            · rw [lessOk_node]
              refine ⟨lessOk_len ll1 hL, hL, ?_⟩
              rw [lessOk_node]
              exact ⟨lessOk_len lr1 hR, hR, hr⟩
            · simp only [sizeN]
              omega
    · split at h
      · cases h
      · rename_i rv rd rn0 rn1 rl rr
        split at h
        · cases h
        · rename_i rv1 rd1 rn01 rn11 rl1 rr1 hpre
          split at h
          · cases h
          · rename_i rd2 nd2 hgd
            simp only [Option.some.injEq, Prod.mk.injEq] at h
            obtain ⟨h4, h5⟩ := h
            subst h4
            obtain ⟨hL, hR, hsz⟩ := rotate_pre_right_ok rv rd rn0 rn1 rl rr _ _ _ _ _ _ hr hpre
            have hIN : lessOk (Node.node nv rd2 (len_child_and_self l) nn1 l rl1) = true := by
              rw [lessOk_node]
              exact ⟨lessOk_len l hl, hl, hL⟩
            constructor
            · rw [lessOk_node]
              exact ⟨lessOk_len _ hIN, hIN, hR⟩
            · simp only [sizeN]
              omega


/-- `balance` preserves the `less_count` invariant and the stored multiset
size (it only rewrites `diff` fields and possibly rotates). -/
theorem balance_lessOk (t : Node) (dd : DeltaDiff) (dir : Direction) (t' : Node) (dd' : DeltaDiff)
    (hok : lessOk t = true) (h : balance t dd dir = some (t', dd')) :
    lessOk t' = true ∧ sizeN t' = sizeN t := by
  cases dd with
  | Zero =>
    simp only [balance, Option.some.injEq, Prod.mk.injEq] at h
    obtain ⟨h1, h2⟩ := h
    subst h1
    exact ⟨hok, rfl⟩
  | Longer =>
    cases t with
    | nil => simp [balance] at h
    | node v d n0 n1 l r =>
      cases dir with
      | Left =>
        rw [balance_longer_left] at h
        split at h
        · cases h
        · rename_i t2 hrot
          simp only [Option.some.injEq, Prod.mk.injEq] at h
          obtain ⟨h1, h2⟩ := h
          subst h1
          have hb := rotate_lessOk _ _ _ (show lessOk (Node.node v (d + 1) n0 n1 l r) = true from hok) hrot
          exact ⟨hb.1, hb.2⟩
        · rename_i t2 hrot
          split_ifs at h <;>
            (simp only [Option.some.injEq, Prod.mk.injEq] at h
             obtain ⟨h1, h2⟩ := h
             subst h1
             have hb := rotate_lessOk _ _ _ (show lessOk (Node.node v (d + 1) n0 n1 l r) = true from hok) hrot
             exact ⟨hb.1, hb.2⟩)
      | Right =>
        rw [balance_longer_right] at h
        split at h
        · cases h
        · rename_i t2 hrot
          simp only [Option.some.injEq, Prod.mk.injEq] at h
          obtain ⟨h1, h2⟩ := h
          subst h1
          have hb := rotate_lessOk _ _ _ (show lessOk (Node.node v (d - 1) n0 n1 l r) = true from hok) hrot
          exact ⟨hb.1, hb.2⟩
        · rename_i t2 hrot
          split_ifs at h <;>
            (simp only [Option.some.injEq, Prod.mk.injEq] at h
             obtain ⟨h1, h2⟩ := h
             subst h1
             have hb := rotate_lessOk _ _ _ (show lessOk (Node.node v (d - 1) n0 n1 l r) = true from hok) hrot
             exact ⟨hb.1, hb.2⟩)
  | Shorter =>
    cases t with
    | nil => simp [balance] at h
    | node v d n0 n1 l r =>
      cases dir with
      | Left =>
        rw [balance_shorter_left] at h
        split_ifs at h with hd1 hd2 hd3
        · split at h
          · cases h
          · rename_i rv rd rn0 rn1 rl rr
            split at h
            · cases h
            · rename_i t2 bb hrot
              simp only [Option.some.injEq, Prod.mk.injEq] at h
              obtain ⟨h1, h2⟩ := h
              subst h1
              have hb := rotate_lessOk _ _ _
                (show lessOk (Node.node v (d - 1) n0 n1 l (Node.node rv rd rn0 rn1 rl rr)) = true from hok) hrot
              exact ⟨hb.1, hb.2⟩
        · simp only [Option.some.injEq, Prod.mk.injEq] at h
          obtain ⟨h1, h2⟩ := h
          subst h1
          exact ⟨hok, rfl⟩
        · simp only [Option.some.injEq, Prod.mk.injEq] at h
          obtain ⟨h1, h2⟩ := h
          subst h1
          exact ⟨hok, rfl⟩
      | Right =>
        rw [balance_shorter_right] at h
        split_ifs at h with hd1 hd2 hd3
        · split at h
          · cases h
          · rename_i lv ld ln0 ln1 ll lr
            simp only [Option.some.injEq, Prod.mk.injEq] at h
            obtain ⟨h1, h2⟩ := h
            subst h1
            exact ⟨hok, rfl⟩
        · simp only [Option.some.injEq, Prod.mk.injEq] at h
          obtain ⟨h1, h2⟩ := h
          subst h1
          exact ⟨hok, rfl⟩
        · simp only [Option.some.injEq, Prod.mk.injEq] at h
          obtain ⟨h1, h2⟩ := h
          subst h1
          exact ⟨hok, rfl⟩

/-- Definitional unfolding of `push_child` at a node. -/
theorem push_child_node_eq (v d : Int) (n0 n1 : Nat) (l r : Node) (x : Int) :
    push_child (Node.node v d n0 n1 l r) x =
      (if x < v then
        match l with
        | .node _ _ _ _ _ _ =>
          match push_child l x with
          | none => none
          | some (l', n_ledu, dd0) =>
            match balance (Node.node v d (n0 + 1) n1 l' r) dd0 .Left with
            | none => none
            | some (t', dd) => some (t', n_ledu, dd)
        | .nil =>
          match balance (Node.node v d (n0 + 1) n1 (new_node x) r) .Longer .Left with
          | none => none
          | some (t', dd) => some (t', (0, 0), dd)
      else if x > v then
        match r with
        | .node _ _ _ _ _ _ =>
          match push_child r x with
          | none => none
          | some (r', n_ledu, dd0) =>
            match balance (Node.node v d n0 n1 l r') dd0 .Right with
            | none => none
            | some (t', dd) => some (t', (n_ledu.1 + n0 + n1 + 1, n_ledu.2), dd)
        | .nil =>
          match balance (Node.node v d n0 n1 l (new_node x)) .Longer .Right with
          | none => none
          | some (t', dd) => some (t', (n0 + n1 + 1, 0), dd)
      else
        some (Node.node v d n0 (n1 + 1) l r, (n0, n1 + 1), .Zero)) := by
  cases l <;> cases r <;> rfl

/-- `push_child` preserves the `less_count` invariant and grows the stored
multiset by exactly one element. -/
theorem push_child_lessOk (t : Node) (x : Int) (t' : Node) (p : Nat × Nat) (dd : DeltaDiff)
    (hok : lessOk t = true) (h : push_child t x = some (t', p, dd)) :
    lessOk t' = true ∧ sizeN t' = sizeN t + 1 := by
  induction t generalizing t' p dd with
  | nil => simp [push_child] at h
  | node v d n0 n1 l r ihl ihr =>
    have hok0 := hok
    rw [lessOk_node] at hok0
    obtain ⟨h0, hl, hr⟩ := hok0
    rw [push_child_node_eq] at h
    split_ifs at h with hlt hgt
    · split at h
      · rename_i lv ld l0 l1 ll lr
        split at h
        · cases h
        · rename_i l' nle dd0 hpc
          split at h
          · cases h
          · rename_i t2 dd2 hbal
            simp only [Option.some.injEq, Prod.mk.injEq] at h
            obtain ⟨h1, h2⟩ := h
            subst h1
            obtain ⟨hL, hS⟩ := ihl _ _ _ hl hpc
            have hok2 : lessOk (Node.node v d (n0 + 1) n1 l' r) = true := by
              rw [lessOk_node]
              exact ⟨by omega, hL, hr⟩
            have hb := balance_lessOk _ _ _ _ _ hok2 hbal
            refine ⟨hb.1, ?_⟩
            rw [hb.2]
            simp only [sizeN] at hS ⊢
            omega
      · split at h
        · cases h
        · rename_i t2 dd2 hbal
          simp only [Option.some.injEq, Prod.mk.injEq] at h
          obtain ⟨h1, h2⟩ := h
          subst h1
          have hok2 : lessOk (Node.node v d (n0 + 1) n1 (new_node x) r) = true := by
            rw [lessOk_node]
            refine ⟨?_, rfl, hr⟩
            simp only [new_node, sizeN] at h0 ⊢
            omega
          have hb := balance_lessOk _ _ _ _ _ hok2 hbal
          refine ⟨hb.1, ?_⟩
          rw [hb.2]
          simp only [sizeN, new_node]
          omega
    · split at h
      · rename_i rv rd rr0 rr1 rl rr
        split at h
        · cases h
        · rename_i r' nle dd0 hpc
          split at h
          · cases h
          · rename_i t2 dd2 hbal
            simp only [Option.some.injEq, Prod.mk.injEq] at h
            obtain ⟨h1, h2⟩ := h
            subst h1
            obtain ⟨hR, hS⟩ := ihr _ _ _ hr hpc
            have hok2 : lessOk (Node.node v d n0 n1 l r') = true := by
              rw [lessOk_node]
              exact ⟨h0, hl, hR⟩
            have hb := balance_lessOk _ _ _ _ _ hok2 hbal
            refine ⟨hb.1, ?_⟩
            rw [hb.2]
            simp only [sizeN] at hS ⊢
            omega
      · split at h
        · cases h
        · rename_i t2 dd2 hbal
          simp only [Option.some.injEq, Prod.mk.injEq] at h
          obtain ⟨h1, h2⟩ := h
          subst h1
          have hok2 : lessOk (Node.node v d n0 n1 l (new_node x)) = true := by
            rw [lessOk_node]
            exact ⟨h0, hl, rfl⟩
          have hb := balance_lessOk _ _ _ _ _ hok2 hbal
          refine ⟨hb.1, ?_⟩
          rw [hb.2]
          simp only [sizeN, new_node]
          omega
    · simp only [Option.some.injEq, Prod.mk.injEq] at h
      obtain ⟨h1, h2⟩ := h
      subst h1
      constructor
      · rw [lessOk_node]
        exact ⟨h0, hl, hr⟩
      · simp only [sizeN]
        omega

/-- `push` at the tree facade preserves the `less_count` invariant. -/
theorem tree_push_lessOk (t : Node) (x : Int) (p : Nat × Nat) (t' : Node)
    (hok : lessOk t = true) (h : tree_push t x = some (p, t')) : lessOk t' = true := by
  cases t with
  | nil =>
    simp only [tree_push, Option.some.injEq, Prod.mk.injEq] at h
    obtain ⟨h1, h2⟩ := h
    subst h2
    rfl
  | node v d n0 n1 l r =>
    rw [show tree_push (Node.node v d n0 n1 l r) x =
        (match push_child (Node.node v d n0 n1 l r) x with
         | none => none
         | some (t2, n_ledu, _) => some (n_ledu, t2)) from rfl] at h
    split at h
    · cases h
    · rename_i t2 nle dd hpc
      simp only [Option.some.injEq, Prod.mk.injEq] at h
      obtain ⟨h1, h2⟩ := h
      subst h2
      exact (push_child_lessOk _ _ _ _ _ hok hpc).1

/-- C4 (amended): after any sequence of pushes starting from the empty tree,
every node of the resulting tree stores in `n_ledu.0` exactly the total
element count (counting duplicates) of its left subtree.  (As stated the
claim is false: for non-root nodes this count differs from the number of
elements of the whole tree strictly below the node's value — see the
counterexample.) -/
theorem avl_C4 (vs : List Int) (t : Node) (h : push_seq vs = some t) : lessOk t = true := by
  suffices H : ∀ (ws : List Int) (o : Option Node) (u : Node),
      (∀ w, o = some w → lessOk w = true) →
      ws.foldl (fun acc v => acc.bind (fun s => (tree_push s v).map (fun p => p.2))) o = some u →
      lessOk u = true by
    exact H vs (some .nil) t (fun w hw => by cases hw; rfl) h
  intro ws
  induction ws with
  | nil =>
    intro o u ho hfold
    exact ho u hfold
  | cons v ws ih =>
    intro o u ho hfold
    rw [List.foldl_cons] at hfold
    refine ih _ u ?_ hfold
    intro w hw
    cases o with
    | none => exact Option.noConfusion hw
    | some s =>
      replace hw : (tree_push s v).map (fun p => p.2) = some w := hw
      cases hps : tree_push s v with
      | none => rw [hps] at hw; exact Option.noConfusion hw
      | some q =>
        rw [hps] at hw
        replace hw : some q.2 = some w := hw
        injection hw with hw
        subst hw
        exact tree_push_lessOk s v q.1 q.2 (ho s rfl) (by rw [hps])


/-- Witness for C4 at the push sequence [2, 1, 3]. -/
theorem avl_C4_witness :
    lessOk (Node.node 2 0 1 0 (Node.node 1 0 0 0 .nil .nil) (Node.node 3 0 0 0 .nil .nil)) = true :=
  avl_C4 [2, 1, 3]
    (Node.node 2 0 1 0 (Node.node 1 0 0 0 .nil .nil) (Node.node 3 0 0 0 .nil .nil)) (by decide)

end Avlsort
